import Mathlib

/-!
# TodoApp (script.js): a shallow embedding and its specification

The program is one class, `TodoApp`, that keeps an array of task records in memory,
mirrors it to `localStorage` as JSON and re-renders the list after every mutation.

Conventions of the embedding:

* A JavaScript string is the list of its UTF-16 code units (`JSString`); a code unit is a
  natural number below `65536`.  Source literals are written as Lean strings and encoded with
  `utf16`.
* The fields of `TodoApp` hold the parts of the page the methods read or write: the task
  array, the value of the text input, the entry of `localStorage` under `todo-tasks`, and
  the rendered list, counters and placeholder.
* What a method takes from its environment (the clock, the random number generator, whether
  the storage accepts a write, the answer to `confirm`) is an explicit argument.
* `JSON.stringify`, `JSON.parse`, `String.prototype.trim`, the serialisation of a text
  node and the tokenizer that reads `innerHTML` are library functions of the host; they are
  embedded from their standards (ECMA-262, ECMA-404, HTML), restricted to the values the
  program passes to them.
* The identifier of a task is a string, as `generateTaskId` returns it and as the click
  handlers read it from `dataset.taskId`; on two strings the loose comparisons `==` and `!=`
  of `toggleTask` and `deleteTask` are equality and inequality of the code units.
-/

namespace TodoApp

/-! ## Strings -/

/-- A JavaScript string: the sequence of its UTF-16 code units. -/
abbrev JSString := List Nat

/-- The UTF-16 encoding of one Unicode scalar value. -/
def utf16Char (c : Char) : JSString :=
  if c.toNat < 0x10000 then [c.toNat]
  else [0xD800 + (c.toNat - 0x10000) / 0x400, 0xDC00 + (c.toNat - 0x10000) % 0x400]

/-- The JavaScript string denoted by a source literal. -/
def utf16 (s : String) : JSString :=
  s.data.flatMap utf16Char

/-- ECMA-262 `WhiteSpace` and `LineTerminator` code points, the ones `trim` strips:
TAB, LF, VT, FF, CR, SP, NBSP, U+1680, U+2000..U+200A, LS, PS, U+202F, U+205F, U+3000 and
U+FEFF. -/
def isWhiteSpace (c : Nat) : Bool :=
  c == 0x09 || c == 0x0A || c == 0x0B || c == 0x0C || c == 0x0D || c == 0x20 ||
  c == 0xA0 || c == 0x1680 || (0x2000 ≤ c && c ≤ 0x200A) || c == 0x2028 || c == 0x2029 ||
  c == 0x202F || c == 0x205F || c == 0x3000 || c == 0xFEFF

/-- `String.prototype.trimStart`. -/
def trimStart (s : JSString) : JSString :=
  s.dropWhile isWhiteSpace

/-- `String.prototype.trimEnd`. -/
def trimEnd (s : JSString) : JSString :=
  (s.reverse.dropWhile isWhiteSpace).reverse

/-- `String.prototype.trim`: strips white space from both ends. -/
def trim (s : JSString) : JSString :=
  trimEnd (trimStart s)

/-- The HTML "escaping a string" step for a text node (not in attribute mode):
`&`, U+00A0, `<` and `>` are replaced, every other code unit is kept. A double quote and an
apostrophe are kept as they are. -/
def escapeTextUnit (c : Nat) : JSString :=
  if c = 0x26 then utf16 "&amp;"
  else if c = 0xA0 then utf16 "&nbsp;"
  else if c = 0x3C then utf16 "&lt;"
  else if c = 0x3E then utf16 "&gt;"
  else [c]

/-- `sanitizeInput(text)`: a fresh `div` gets `text` as its `textContent` and its
`innerHTML` is returned, which is the serialisation of the single text node (of nothing
when `text` is empty). -/
def sanitizeInput (text : JSString) : JSString :=
  text.flatMap escapeTextUnit

/-- Decimal digits of a natural number, most significant first, with `fuel` bounding the
number of digits produced. -/
def decimalAux : Nat → Nat → JSString → JSString
  | 0, _, acc => acc
  | fuel + 1, n, acc =>
    if n < 10 then (0x30 + n) :: acc
    else decimalAux fuel (n / 10) ((0x30 + n % 10) :: acc)

/-- `Number::toString` of a non-negative integer below `2^53` (an array length). -/
def numberToString (n : Nat) : JSString :=
  decimalAux (n + 1) n []

/-- `Boolean::toString`, as used when a boolean is interpolated in a template literal. -/
def booleanToString (b : Bool) : JSString :=
  if b then utf16 "true" else utf16 "false"

/-! ## Data model -/

/-- A task record, as `addTask` builds it: `{ id, text, completed, createdAt }`. -/
structure Task where
  id : JSString
  text : JSString
  completed : Bool
  createdAt : JSString
  deriving DecidableEq, Repr

/-- An `li` element of the rendered list: the properties `renderTasks` sets on it. -/
structure TaskElement where
  className : JSString
  taskId : JSString
  role : JSString
  innerHTML : JSString
  deriving DecidableEq, Repr

/-- A notification appended to the page by `showNotification` (message and type). -/
structure Notification where
  message : JSString
  type : JSString
  deriving DecidableEq, Repr

/-- Outcome of `localStorage.setItem`: the write is stored, or it throws
`QuotaExceededError`, or it throws another error. -/
inductive WriteOutcome where
  | stored
  | quotaExceeded
  | otherError
  deriving DecidableEq, Repr

end TodoApp

/-- The state of a `TodoApp` instance together with the parts of the page it owns. -/
structure TodoApp where
  /-- The array `this.tasks`. -/
  tasks : List TodoApp.Task
  /-- The property `this.input.value`. -/
  inputValue : TodoApp.JSString
  /-- The entry `todo-tasks` of `localStorage`; `none` when the key is absent. -/
  storage : Option TodoApp.JSString
  /-- Children of `this.tasksList`. -/
  tasksList : List TodoApp.TaskElement
  /-- The property `this.taskCount.textContent`. -/
  taskCount : TodoApp.JSString
  /-- The property `this.completedCount.textContent`. -/
  completedCount : TodoApp.JSString
  /-- The property `this.emptyState.style.display`. -/
  emptyStateDisplay : TodoApp.JSString
  /-- The property `this.tasksList.style.display`. -/
  tasksListDisplay : TodoApp.JSString
  /-- Notifications shown so far, newest first. -/
  notifications : List TodoApp.Notification
  deriving DecidableEq, Repr

namespace TodoApp

/-! ## Rendering -/

/-- The markup assigned to `li.innerHTML` for one task: the template literal of
`renderTasks` with its four interpolations. -/
def taskInnerHTML (task : Task) : JSString :=
  utf16 "\n        <div class=\"checkbox\" \n             role=\"checkbox\" \n             aria-checked=\""
    ++ booleanToString task.completed
    ++ utf16 "\"\n             tabindex=\"0\"\n             aria-label=\""
    ++ (if task.completed then utf16 "Mark as incomplete" else utf16 "Mark as complete")
    ++ utf16 ": " ++ task.text
    ++ utf16 "\">\n          "
    ++ (if task.completed then utf16 "✓" else [])
    ++ utf16 "\n        </div>\n        <span class=\"task-text\">"
    ++ task.text
    ++ utf16 "</span>\n        <button class=\"delete-btn\" \n                aria-label=\"Delete task: "
    ++ task.text
    ++ utf16 "\"\n                tabindex=\"0\">\n          🗑️\n        </button>\n      "

/-- The `li` element `renderTasks` creates for one task. -/
def taskElement (task : Task) : TaskElement where
  className := utf16 "task " ++ (if task.completed then utf16 "completed" else [])
  taskId := task.id
  role := utf16 "listitem"
  innerHTML := taskInnerHTML task

/-- `renderTasks()`: the list is emptied and one `li` per task is appended, in order. -/
def renderTasks (app : TodoApp) : TodoApp :=
  { app with tasksList := app.tasks.map taskElement }

/-- `renderStats()`: both counters are written from the current array. -/
def renderStats (app : TodoApp) : TodoApp :=
  let totalTasks := app.tasks.length
  let completedTasks := (app.tasks.filter fun t => t.completed).length
  { app with
    taskCount := numberToString totalTasks ++ utf16 " task"
      ++ (if totalTasks ≠ 1 then utf16 "s" else [])
    completedCount := numberToString completedTasks ++ utf16 " completed" }

/-- `renderEmptyState()`: the placeholder is shown exactly when the array is empty. -/
def renderEmptyState (app : TodoApp) : TodoApp :=
  if app.tasks.length = 0 then
    { app with emptyStateDisplay := utf16 "block", tasksListDisplay := utf16 "none" }
  else
    { app with emptyStateDisplay := utf16 "none", tasksListDisplay := utf16 "block" }

/-- `render()`. -/
def render (app : TodoApp) : TodoApp :=
  renderEmptyState (renderStats (renderTasks app))

/-- `showNotification(message, type)`: a notification element is appended to the page. -/
def showNotification (app : TodoApp) (message type : JSString) : TodoApp :=
  { app with notifications := { message := message, type := type } :: app.notifications }

end TodoApp

namespace TodoApp

/-! ## JSON text written by `saveTasks` -/

/-- A lowercase hexadecimal digit, as a code unit. -/
def hexDigit (d : Nat) : Nat :=
  if d < 10 then 0x30 + d else 0x61 + (d - 10)

/-- ECMA-262 `UnicodeEscape`: a backslash, `u` and four lowercase hexadecimal digits. -/
def unicodeEscape (c : Nat) : JSString :=
  [0x5C, 0x75, hexDigit (c / 4096 % 16), hexDigit (c / 256 % 16), hexDigit (c / 16 % 16),
    hexDigit (c % 16)]

/-- A leading (high) surrogate code unit. -/
def isLeadingSurrogate (c : Nat) : Bool :=
  0xD800 ≤ c && c ≤ 0xDBFF

/-- A trailing (low) surrogate code unit. -/
def isTrailingSurrogate (c : Nat) : Bool :=
  0xDC00 ≤ c && c ≤ 0xDFFF

/-- What `QuoteJSONString` emits for a code point that is one code unit: the short escapes
of its table, a `UnicodeEscape` for the other control characters and for a surrogate that
is not part of a pair, and the code unit itself otherwise. -/
def quoteUnit (c : Nat) : JSString :=
  if c = 0x08 then [0x5C, 0x62]
  else if c = 0x09 then [0x5C, 0x74]
  else if c = 0x0A then [0x5C, 0x6E]
  else if c = 0x0C then [0x5C, 0x66]
  else if c = 0x0D then [0x5C, 0x72]
  else if c = 0x22 then [0x5C, 0x22]
  else if c = 0x5C then [0x5C, 0x5C]
  else if c < 0x20 || (0xD800 ≤ c && c ≤ 0xDFFF) then unicodeEscape c
  else [c]

/-- The characters `QuoteJSONString` puts between the quotes: the string is read code point
by code point, so a leading surrogate followed by a trailing one is copied as a pair. -/
def quoteChars : JSString → JSString
  | [] => []
  | [c] => quoteUnit c
  | c :: d :: rest =>
    if isLeadingSurrogate c && isTrailingSurrogate d then c :: d :: quoteChars rest
    else quoteUnit c ++ quoteChars (d :: rest)

/-- ECMA-262 `QuoteJSONString`. -/
def quoteJSONString (s : JSString) : JSString :=
  0x22 :: (quoteChars s ++ [0x22])

/-- One member of a serialised object: the quoted key, a colon and the serialised value. -/
def stringifyMember (key value : JSString) : JSString :=
  quoteJSONString key ++ 0x3A :: value

/-- `JSON.stringify` of one task record: its four properties in creation order, separated
by commas, between braces. -/
def stringifyTask (t : Task) : JSString :=
  0x7B :: (stringifyMember (utf16 "id") (quoteJSONString t.id)
    ++ 0x2C :: (stringifyMember (utf16 "text") (quoteJSONString t.text)
    ++ 0x2C :: (stringifyMember (utf16 "completed") (booleanToString t.completed)
    ++ 0x2C :: (stringifyMember (utf16 "createdAt") (quoteJSONString t.createdAt)
    ++ [0x7D]))))

/-- The elements of a serialised array, separated by commas. -/
def stringifyElements : List Task → JSString
  | [] => []
  | [t] => stringifyTask t
  | t :: u :: rest => stringifyTask t ++ 0x2C :: stringifyElements (u :: rest)

/-- `JSON.stringify(this.tasks)` for an array of task records. -/
def stringifyTasks (tasks : List Task) : JSString :=
  0x5B :: (stringifyElements tasks ++ [0x5D])

/-! ## JSON values read by `loadTasks` -/

/-- A value `JSON.parse` can return. A number is kept as the text of its literal: its
value is a function of that text and no operation of the program inspects it. The
properties of an object are kept in creation order. -/
inductive JSValue where
  | null
  | bool (b : Bool)
  | number (literal : JSString)
  | string (s : JSString)
  | array (elements : List JSValue)
  | object (properties : List (JSString × JSValue))

/-- JSON white space: TAB, LF, CR and SP. -/
def isJSONWhiteSpace (c : Nat) : Bool :=
  c == 0x09 || c == 0x0A || c == 0x0D || c == 0x20

/-- Drops leading JSON white space. -/
def skipWhiteSpace (cs : JSString) : JSString :=
  cs.dropWhile isJSONWhiteSpace

/-- The value of a hexadecimal digit of either case. -/
def hexValue (c : Nat) : Option Nat :=
  if 0x30 ≤ c ∧ c ≤ 0x39 then some (c - 0x30)
  else if 0x61 ≤ c ∧ c ≤ 0x66 then some (c - 0x61 + 10)
  else if 0x41 ≤ c ∧ c ≤ 0x46 then some (c - 0x41 + 10)
  else none

/-- The code unit denoted by the four hexadecimal digits of a `\u` escape. -/
def hex4 (a b c d : Nat) : Option Nat :=
  match hexValue a, hexValue b, hexValue c, hexValue d with
  | some x, some y, some z, some w => some (x * 4096 + y * 256 + z * 16 + w)
  | _, _, _, _ => none

/-- The code unit denoted by a single-character escape of a JSON string. -/
def singleEscape (e : Nat) : Option Nat :=
  if e = 0x22 then some 0x22
  else if e = 0x5C then some 0x5C
  else if e = 0x2F then some 0x2F
  else if e = 0x62 then some 0x08
  else if e = 0x66 then some 0x0C
  else if e = 0x6E then some 0x0A
  else if e = 0x72 then some 0x0D
  else if e = 0x74 then some 0x09
  else none

/-- Reads the characters of a JSON string after its opening quote, up to and including
the closing quote; returns the string denoted and the rest of the input. -/
def parseStringChars : JSString → Option (JSString × JSString)
  | [] => none
  | c :: rest =>
    if c = 0x22 then some ([], rest)
    else if c = 0x5C then
      match rest with
      | [] => none
      | e :: rest1 =>
        if e = 0x75 then
          match rest1 with
          | h1 :: h2 :: h3 :: h4 :: rest2 =>
            match hex4 h1 h2 h3 h4 with
            | some u => (parseStringChars rest2).map fun p => (u :: p.1, p.2)
            | none => none
          | _ => none
        else
          match singleEscape e with
          | some u => (parseStringChars rest1).map fun p => (u :: p.1, p.2)
          | none => none
    else if c < 0x20 then none
    else (parseStringChars rest).map fun p => (c :: p.1, p.2)

/-- A decimal digit. -/
def isDigit (c : Nat) : Bool :=
  0x30 ≤ c && c ≤ 0x39

/-- Reads a non-empty run of decimal digits. -/
def parseDigits (cs : JSString) : Option (JSString × JSString) :=
  if cs.takeWhile isDigit = [] then none
  else some (cs.takeWhile isDigit, cs.dropWhile isDigit)

/-- Reads the integer part of a JSON number: `0`, or a digit from 1 to 9 followed by
digits. -/
def parseInt (cs : JSString) : Option (JSString × JSString) :=
  match cs with
  | [] => none
  | c :: rest =>
    if c = 0x30 then some ([0x30], rest)
    else if isDigit c then some (c :: rest.takeWhile isDigit, rest.dropWhile isDigit)
    else none

/-- Reads the optional fraction of a JSON number. -/
def parseFraction (cs : JSString) : Option (JSString × JSString) :=
  match cs with
  | [] => some ([], [])
  | c :: rest =>
    if c = 0x2E then (parseDigits rest).map fun p => (0x2E :: p.1, p.2)
    else some ([], c :: rest)

/-- Reads the optional exponent of a JSON number. -/
def parseExponent (cs : JSString) : Option (JSString × JSString) :=
  match cs with
  | [] => some ([], [])
  | c :: rest =>
    if c = 0x65 ∨ c = 0x45 then
      match rest with
      | [] => none
      | s :: rest1 =>
        if s = 0x2B ∨ s = 0x2D then (parseDigits rest1).map fun p => (c :: s :: p.1, p.2)
        else (parseDigits rest).map fun p => (c :: p.1, p.2)
    else some ([], c :: rest)

/-- Reads a JSON number after its optional minus sign. -/
def parseUnsigned (cs : JSString) : Option (JSString × JSString) :=
  match parseInt cs with
  | none => none
  | some (i, rest) =>
    match parseFraction rest with
    | none => none
    | some (f, rest1) =>
      match parseExponent rest1 with
      | none => none
      | some (e, rest2) => some (i ++ f ++ e, rest2)

/-- Reads a JSON number; returns the text of the literal and the rest of the input. -/
def parseNumber (cs : JSString) : Option (JSString × JSString) :=
  match cs with
  | [] => none
  | c :: rest =>
    if c = 0x2D then (parseUnsigned rest).map fun p => (0x2D :: p.1, p.2)
    else parseUnsigned (c :: rest)

/-- Removes `word` from the front of the input when the input starts with it. -/
def dropPrefix (word cs : JSString) : Option JSString :=
  if word.isPrefixOf cs then some (cs.drop word.length) else none

/-- Defines the property `key` of an object under construction: the value of an existing
property is replaced, a new property is appended. -/
def setProperty (props : List (JSString × JSValue)) (key : JSString) (v : JSValue) :
    List (JSString × JSValue) :=
  match props with
  | [] => [(key, v)]
  | (k, w) :: rest => if k = key then (k, v) :: rest else (k, w) :: setProperty rest key v

/-- What the parser is reading: one value, the remaining elements of an array, or the
remaining members of an object. -/
inductive ParseMode where
  | value
  | elements (acc : List JSValue)
  | members (acc : List (JSString × JSValue))

/-- One level of the JSON grammar of ECMA-404 by recursive descent: what is read in the given
mode, `recur` reading the nested values, element lists and member lists. -/
def parseStep (recur : ParseMode → JSString → Option (JSValue × JSString)) :
    ParseMode → JSString → Option (JSValue × JSString)
  | .value, cs =>
    match skipWhiteSpace cs with
    | [] => none
    | c :: rest =>
      if c = 0x22 then (parseStringChars rest).map fun p => (.string p.1, p.2)
      else if c = 0x5B then
        match skipWhiteSpace rest with
        | [] => none
        | d :: rest1 =>
          if d = 0x5D then some (.array [], rest1)
          else recur (.elements []) rest
      else if c = 0x7B then
        match skipWhiteSpace rest with
        | [] => none
        | d :: rest1 =>
          if d = 0x7D then some (.object [], rest1)
          else recur (.members []) rest
      else if c = 0x6E then (dropPrefix (utf16 "ull") rest).map fun r => (.null, r)
      else if c = 0x74 then (dropPrefix (utf16 "rue") rest).map fun r => (.bool true, r)
      else if c = 0x66 then (dropPrefix (utf16 "alse") rest).map fun r => (.bool false, r)
      else (parseNumber (c :: rest)).map fun p => (.number p.1, p.2)
  | .elements acc, cs =>
    match recur .value cs with
    | none => none
    | some (v, rest) =>
      match skipWhiteSpace rest with
      | [] => none
      | d :: rest1 =>
        if d = 0x2C then recur (.elements (acc ++ [v])) rest1
        else if d = 0x5D then some (.array (acc ++ [v]), rest1)
        else none
  | .members acc, cs =>
    match skipWhiteSpace cs with
    | [] => none
    | q :: rest =>
      if q = 0x22 then
        match parseStringChars rest with
        | none => none
        | some (key, rest1) =>
          match skipWhiteSpace rest1 with
          | [] => none
          | colon :: rest2 =>
            if colon = 0x3A then
              match recur .value rest2 with
              | none => none
              | some (v, rest3) =>
                match skipWhiteSpace rest3 with
                | [] => none
                | d :: rest4 =>
                  if d = 0x2C then recur (.members (setProperty acc key v)) rest4
                  else if d = 0x7D then some (.object (setProperty acc key v), rest4)
                  else none
            else none
      else none

/-- The JSON grammar by recursive descent, nested at most `fuel` levels deep; a value, an
element list and a member list each take one level. -/
def parseJSON : Nat → ParseMode → JSString → Option (JSValue × JSString)
  | 0 => fun _ _ => none
  | fuel + 1 => parseStep (parseJSON fuel)

/-- The levels that are enough to read the input `cs` in the given mode. -/
def parseFuel (mode : ParseMode) (cs : JSString) : Nat :=
  match mode with
  | .value => 2 * cs.length + 1
  | _ => 2 * cs.length + 2

/-- `JSON.parse(text)`: one value between optional white space; `none` stands for the
`SyntaxError` thrown on any other text. Every nested level consumes a character or is
followed by one that does, so `parseFuel` levels are enough for any text. -/
def jsonParse (text : JSString) : Option JSValue :=
  match parseJSON (parseFuel .value text) .value text with
  | none => none
  | some (v, rest) => if skipWhiteSpace rest = [] then some v else none

end TodoApp

namespace TodoApp

/-! ## Loading and saving -/

/-- The value `JSON.parse` builds for the text `JSON.stringify` writes for a task. -/
def taskToJS (t : Task) : JSValue :=
  .object [(utf16 "id", .string t.id), (utf16 "text", .string t.text),
    (utf16 "completed", .bool t.completed), (utf16 "createdAt", .string t.createdAt)]

/-- Reads a parsed object as a task record: exactly the four properties of a task, in
creation order, with values of the types `addTask` gives them. -/
def taskOfJS : JSValue → Option Task
  | .object [(k1, .string id), (k2, .string text), (k3, .bool completed),
      (k4, .string createdAt)] =>
    if k1 = utf16 "id" ∧ k2 = utf16 "text" ∧ k3 = utf16 "completed" ∧ k4 = utf16 "createdAt"
    then some { id := id, text := text, completed := completed, createdAt := createdAt }
    else none
  | _ => none

/-- Reads every element of a parsed array as a task record. -/
def tasksOfElements : List JSValue → Option (List Task)
  | [] => some []
  | v :: rest =>
    match taskOfJS v, tasksOfElements rest with
    | some t, some ts => some (t :: ts)
    | _, _ => none

/-- Reads a parsed value as an array of task records; `none` when it is anything else. -/
def tasksOfJS : JSValue → Option (List Task)
  | .array elements => tasksOfElements elements
  | _ => none

/-- `loadTasks()`. `storage` is the entry `todo-tasks` of `localStorage` and `readThrows`
tells whether `localStorage.getItem` throws. An absent key (`null`) and the empty string
are falsy; an exception of `getItem` or of `JSON.parse` is caught. -/
def loadTasks (storage : Option JSString) (readThrows : Bool) : JSValue :=
  if readThrows then .array []
  else
    match storage with
    | none => .array []
    | some stored =>
      if stored = [] then .array []
      else
        match jsonParse stored with
        | some v => v
        | none => .array []

/-- `saveTasks()`: the array is serialised and written under `todo-tasks`; when the write
throws, the storage keeps its content and a quota error is notified. -/
def saveTasks (app : TodoApp) (w : WriteOutcome) : TodoApp :=
  match w with
  | .stored => { app with storage := some (stringifyTasks app.tasks) }
  | .quotaExceeded =>
    showNotification app (utf16 "Storage full! Please delete some tasks.") (utf16 "warning")
  | .otherError => app

/-- The constructor `new TodoApp()` on a page `page` (whose `tasks` field is not read):
the array is loaded and the page rendered. `none` when the stored value is not an array of
task records, which the typed array of this embedding cannot hold. -/
def construct (page : TodoApp) (readThrows : Bool) : Option TodoApp :=
  match tasksOfJS (loadTasks page.storage readThrows) with
  | some tasks => some (render { page with tasks := tasks })
  | none => none

/-! ## Operations -/

/-- `addTask()`. `taskId` is the string `generateTaskId()` returns and `createdAt` the
string `new Date().toISOString()` returns at the call. The final `this.input.focus()` moves
the focus and changes no part of the state. -/
def addTask (app : TodoApp) (taskId createdAt : JSString) (w : WriteOutcome) : TodoApp :=
  let text := trim app.inputValue
  if text = [] then app
  else
    let sanitizedText := sanitizeInput text
    let newTask : Task :=
      { id := taskId, text := sanitizedText, completed := false, createdAt := createdAt }
    render (saveTasks { app with tasks := newTask :: app.tasks, inputValue := [] } w)

/-- The effect of `task.completed = !task.completed` on the array, `task` being the first
element whose `id` equals `taskId` (`Array.prototype.find`). Both operands of `==` are
strings, for which loose equality is equality of the code units. -/
def toggleFirst (taskId : JSString) : List Task → List Task
  | [] => []
  | t :: rest =>
    if t.id = taskId then { t with completed := !t.completed } :: rest
    else t :: toggleFirst taskId rest

/-- `toggleTask(taskId)`. -/
def toggleTask (app : TodoApp) (taskId : JSString) (w : WriteOutcome) : TodoApp :=
  match app.tasks.find? (fun t => t.id = taskId) with
  | some _ => render (saveTasks { app with tasks := toggleFirst taskId app.tasks } w)
  | none => app

/-- The callback `deleteTask(taskId)` hands to `setTimeout`, run 300 ms later: the removal
step, which keeps the tasks `t` with `t.id != taskId`. `deleteTask` schedules it when an
element with that `data-task-id` is rendered, and nothing cancels it. -/
def deleteTaskCallback (app : TodoApp) (taskId : JSString) (w : WriteOutcome) : TodoApp :=
  render (saveTasks { app with tasks := app.tasks.filter (fun t => t.id ≠ taskId) } w)

/-- `clearCompleted()`. -/
def clearCompleted (app : TodoApp) (w : WriteOutcome) : TodoApp :=
  render (saveTasks { app with tasks := app.tasks.filter (fun t => !t.completed) } w)

/-- `clearAll()`; `confirmed` is the answer to the `confirm` dialog. -/
def clearAll (app : TodoApp) (confirmed : Bool) (w : WriteOutcome) : TodoApp :=
  if confirmed then render (saveTasks { app with tasks := [] } w)
  else app

/-- The states a `TodoApp` goes through: the one its constructor leaves, and then any
sequence of the user typing in the input and of the five mutating operations. -/
inductive Reachable : TodoApp → Prop where
  | construct (page app : TodoApp) (readThrows : Bool) :
      construct page readThrows = some app → Reachable app
  | typeInput (app : TodoApp) (text : JSString) :
      Reachable app → Reachable { app with inputValue := text }
  | addTask (app : TodoApp) (taskId createdAt : JSString) (w : WriteOutcome) :
      Reachable app → Reachable (addTask app taskId createdAt w)
  | toggleTask (app : TodoApp) (taskId : JSString) (w : WriteOutcome) :
      Reachable app → Reachable (toggleTask app taskId w)
  | deleteTaskCallback (app : TodoApp) (taskId : JSString) (w : WriteOutcome) :
      Reachable app → Reachable (deleteTaskCallback app taskId w)
  | clearCompleted (app : TodoApp) (w : WriteOutcome) :
      Reachable app → Reachable (clearCompleted app w)
  | clearAll (app : TodoApp) (confirmed : Bool) (w : WriteOutcome) :
      Reachable app → Reachable (clearAll app confirmed w)

/-- The number a counter shows: the value of the decimal digits its text starts with. -/
def leadingNumber (text : JSString) : Option Nat :=
  if text.takeWhile isDigit = [] then none
  else some ((text.takeWhile isDigit).foldl (fun a d => 10 * a + (d - 0x30)) 0)

/-- The pair of counts the page displays: total and completed. -/
def displayedCounts (app : TodoApp) : Option (Nat × Nat) :=
  match leadingNumber app.taskCount, leadingNumber app.completedCount with
  | some total, some completed => some (total, completed)
  | _, _ => none

/-- Both counters hold the texts `renderStats` builds from the current array. -/
def CountersInSync (app : TodoApp) : Prop :=
  app.taskCount = numberToString app.tasks.length ++ utf16 " task"
      ++ (if app.tasks.length ≠ 1 then utf16 "s" else []) ∧
    app.completedCount
      = numberToString (app.tasks.filter fun t => t.completed).length ++ utf16 " completed"

/-! ## Reading rendered markup

The browser parses the string assigned to `li.innerHTML`. The functions below follow the
tag and attribute states of the HTML tokenizer far enough to read the first start tag of
such a string: they tell which attributes the element gets. Character references in
attribute values are kept as written. -/

/-- The white space of the HTML tokenizer: TAB, LF, FF and SP. -/
def isHTMLWhiteSpace (c : Nat) : Bool :=
  c == 0x09 || c == 0x0A || c == 0x0C || c == 0x20

/-- An ASCII letter. -/
def isASCIIAlpha (c : Nat) : Bool :=
  (0x41 ≤ c && c ≤ 0x5A) || (0x61 ≤ c && c ≤ 0x7A)

/-- ASCII upper-case letters are lowered in tag and attribute names. -/
def asciiLower (c : Nat) : Nat :=
  if 0x41 ≤ c ∧ c ≤ 0x5A then c + 0x20 else c

/-- A start tag token: the tag name and the attributes, in source order. -/
structure StartTag where
  name : JSString
  attributes : List (JSString × JSString)
  deriving DecidableEq, Repr

/-- Adds an attribute to a tag token; an attribute whose name the token already has is
dropped. -/
def StartTag.addAttribute (tag : StartTag) (name value : JSString) : StartTag :=
  if tag.attributes.any (fun a => a.1 == name) then tag
  else { tag with attributes := tag.attributes ++ [(name, value)] }

/-- The tokenizer states inside a start tag, with the attribute being read. -/
inductive TagState where
  | tagName
  | beforeAttributeName
  | attributeName (name : JSString)
  | afterAttributeName (name : JSString)
  | beforeAttributeValue (name : JSString)
  | attributeValueDoubleQuoted (name value : JSString)
  | attributeValueSingleQuoted (name value : JSString)
  | attributeValueUnquoted (name value : JSString)
  | afterAttributeValueQuoted
  | selfClosingStartTag

/-- Runs the tokenizer from inside a start tag up to the `>` that ends it; returns the tag
token and the rest of the input, or `none` when the input ends first. A state that
reconsumes the current character in another state is written as the transition of that
other state. -/
def tokenizeStartTag : TagState → StartTag → JSString → Option (StartTag × JSString)
  | _, _, [] => none
  | .tagName, tag, c :: cs =>
    if isHTMLWhiteSpace c then tokenizeStartTag .beforeAttributeName tag cs
    else if c = 0x2F then tokenizeStartTag .selfClosingStartTag tag cs
    else if c = 0x3E then some (tag, cs)
    else tokenizeStartTag .tagName { tag with name := tag.name ++ [asciiLower c] } cs
  | .beforeAttributeName, tag, c :: cs =>
    if isHTMLWhiteSpace c then tokenizeStartTag .beforeAttributeName tag cs
    else if c = 0x2F then tokenizeStartTag .selfClosingStartTag tag cs
    else if c = 0x3E then some (tag, cs)
    else tokenizeStartTag (.attributeName [asciiLower c]) tag cs
  | .attributeName name, tag, c :: cs =>
    if isHTMLWhiteSpace c then tokenizeStartTag (.afterAttributeName name) tag cs
    else if c = 0x2F then tokenizeStartTag .selfClosingStartTag (tag.addAttribute name []) cs
    else if c = 0x3E then some (tag.addAttribute name [], cs)
    else if c = 0x3D then tokenizeStartTag (.beforeAttributeValue name) tag cs
    else tokenizeStartTag (.attributeName (name ++ [asciiLower c])) tag cs
  | .afterAttributeName name, tag, c :: cs =>
    if isHTMLWhiteSpace c then tokenizeStartTag (.afterAttributeName name) tag cs
    else if c = 0x2F then tokenizeStartTag .selfClosingStartTag (tag.addAttribute name []) cs
    else if c = 0x3D then tokenizeStartTag (.beforeAttributeValue name) tag cs
    else if c = 0x3E then some (tag.addAttribute name [], cs)
    else tokenizeStartTag (.attributeName [asciiLower c]) (tag.addAttribute name []) cs
  | .beforeAttributeValue name, tag, c :: cs =>
    if isHTMLWhiteSpace c then tokenizeStartTag (.beforeAttributeValue name) tag cs
    else if c = 0x22 then tokenizeStartTag (.attributeValueDoubleQuoted name []) tag cs
    else if c = 0x27 then tokenizeStartTag (.attributeValueSingleQuoted name []) tag cs
    else if c = 0x3E then some (tag.addAttribute name [], cs)
    else tokenizeStartTag (.attributeValueUnquoted name [c]) tag cs
  | .attributeValueDoubleQuoted name value, tag, c :: cs =>
    if c = 0x22 then tokenizeStartTag .afterAttributeValueQuoted (tag.addAttribute name value) cs
    else tokenizeStartTag (.attributeValueDoubleQuoted name (value ++ [c])) tag cs
  | .attributeValueSingleQuoted name value, tag, c :: cs =>
    if c = 0x27 then tokenizeStartTag .afterAttributeValueQuoted (tag.addAttribute name value) cs
    else tokenizeStartTag (.attributeValueSingleQuoted name (value ++ [c])) tag cs
  | .attributeValueUnquoted name value, tag, c :: cs =>
    if isHTMLWhiteSpace c then
      tokenizeStartTag .beforeAttributeName (tag.addAttribute name value) cs
    else if c = 0x3E then some (tag.addAttribute name value, cs)
    else tokenizeStartTag (.attributeValueUnquoted name (value ++ [c])) tag cs
  | .afterAttributeValueQuoted, tag, c :: cs =>
    if isHTMLWhiteSpace c then tokenizeStartTag .beforeAttributeName tag cs
    else if c = 0x2F then tokenizeStartTag .selfClosingStartTag tag cs
    else if c = 0x3E then some (tag, cs)
    else tokenizeStartTag (.attributeName [asciiLower c]) tag cs
  | .selfClosingStartTag, tag, c :: cs =>
    if c = 0x3E then some (tag, cs)
    else if isHTMLWhiteSpace c then tokenizeStartTag .beforeAttributeName tag cs
    else if c = 0x2F then tokenizeStartTag .selfClosingStartTag tag cs
    else tokenizeStartTag (.attributeName [asciiLower c]) tag cs

/-- The first start tag of a markup string that begins with text free of `<`: the text is
skipped and the tag that opens with `<` and a letter is read. `none` for any other
markup. -/
def firstStartTag : JSString → Option StartTag
  | [] => none
  | c :: cs =>
    if c = 0x3C then
      match cs with
      | [] => none
      | d :: _ =>
        if isASCIIAlpha d then
          (tokenizeStartTag .tagName { name := [], attributes := [] } cs).map fun r => r.1
        else none
    else firstStartTag cs

/-- The text a user can type to get an event handler into the rendered list:
`x" onclick="alert(1)`. -/
def injectionText : JSString :=
  utf16 "x\" onclick=\"alert(1)"

/-- The page before any script has run, with nothing stored. -/
def emptyPage : TodoApp where
  tasks := []
  inputValue := []
  storage := none
  tasksList := []
  taskCount := []
  completedCount := []
  emptyStateDisplay := []
  tasksListDisplay := []
  notifications := []

/-- A completed task with identifier "1", for the examples. -/
def sampleTask : Task :=
  { id := utf16 "1", text := utf16 "a", completed := true, createdAt := utf16 "t" }

/-- A page holding the given tasks and input text, for the examples. -/
def samplePage (tasks : List Task) (inputValue : JSString) : TodoApp :=
  { emptyPage with tasks := tasks, inputValue := inputValue }

/-- The state after construction on the empty page, typing "Buy milk" and `addTask`. -/
def afterOneAdd : TodoApp :=
  addTask { render emptyPage with inputValue := utf16 "Buy milk" } (utf16 "1") (utf16 "t")
    .stored

end TodoApp

namespace TodoApp

/-! ## Facts about the helpers -/

@[simp] theorem tasks_showNotification (app : TodoApp) (m t : JSString) :
    (showNotification app m t).tasks = app.tasks := rfl

@[simp] theorem tasks_saveTasks (app : TodoApp) (w : WriteOutcome) :
    (saveTasks app w).tasks = app.tasks := by
  cases w <;> rfl

@[simp] theorem tasks_render (app : TodoApp) : (render app).tasks = app.tasks := by
  unfold render renderEmptyState renderStats renderTasks
  split <;> rfl

theorem trim_eq_nil_of_whiteSpace (s : JSString) (h : ∀ c ∈ s, isWhiteSpace c = true) :
    trim s = [] := by
  have h1 : trimStart s = [] := by
    unfold trimStart
    exact List.dropWhile_eq_nil_iff.mpr h
  simp [trim, h1, trimEnd]

theorem toggleFirst_length (taskId : JSString) (l : List Task) :
    (toggleFirst taskId l).length = l.length := by
  induction l with
  | nil => rfl
  | cons t rest ih =>
    unfold toggleFirst
    split <;> simp [ih]

theorem toggleFirst_toggleFirst (taskId : JSString) (l : List Task) :
    toggleFirst taskId (toggleFirst taskId l) = l := by
  induction l with
  | nil => rfl
  | cons t rest ih =>
    by_cases h : t.id = taskId
    · cases t
      simp_all [toggleFirst]
    · simp [toggleFirst, h, ih]

theorem toggleFirst_of_not_mem (taskId : JSString) (l : List Task)
    (h : ∀ t ∈ l, t.id ≠ taskId) : toggleFirst taskId l = l := by
  induction l with
  | nil => rfl
  | cons t rest ih =>
    have ht : t.id ≠ taskId := h t (List.mem_cons_self _ _)
    have hr : ∀ u ∈ rest, u.id ≠ taskId := fun u hu => h u (List.mem_cons_of_mem _ hu)
    simp [toggleFirst, ht, ih hr]

theorem find_toggleFirst_isSome (taskId : JSString) (l : List Task) :
    ((toggleFirst taskId l).find? (fun t => t.id = taskId)).isSome
      = (l.find? (fun t => t.id = taskId)).isSome := by
  induction l with
  | nil => rfl
  | cons t rest ih =>
    by_cases h : t.id = taskId
    · simp [toggleFirst, h]
    · simp [toggleFirst, h, ih]

theorem toggleFirst_getElem? (taskId : JSString) (l : List Task) (i : Nat) :
    (toggleFirst taskId l)[i]? = (l[i]?).map fun t =>
      if i = l.findIdx (fun t => t.id = taskId) then { t with completed := !t.completed }
      else t := by
  induction l generalizing i with
  | nil => simp [toggleFirst]
  | cons t rest ih =>
    by_cases h : t.id = taskId
    · cases i with
      | zero => simp [toggleFirst, h, List.findIdx_cons]
      | succ j => simp [toggleFirst, h, List.findIdx_cons]
    · cases i with
      | zero => simp [toggleFirst, h, List.findIdx_cons]
      | succ j => simp [toggleFirst, h, List.findIdx_cons, ih]

theorem tasks_toggleTask (app : TodoApp) (taskId : JSString) (w : WriteOutcome) :
    (toggleTask app taskId w).tasks = toggleFirst taskId app.tasks := by
  unfold toggleTask
  split
  · simp
  · rename_i hnone
    have : ∀ t ∈ app.tasks, t.id ≠ taskId := by
      intro t ht
      have := List.find?_eq_none.mp hnone t ht
      simpa using this
    exact (toggleFirst_of_not_mem taskId app.tasks this).symm

@[simp] theorem tasks_deleteTaskCallback (app : TodoApp) (taskId : JSString)
    (w : WriteOutcome) :
    (deleteTaskCallback app taskId w).tasks = app.tasks.filter (fun t => t.id ≠ taskId) := by
  simp [deleteTaskCallback]

end TodoApp

namespace TodoApp

/-! ## Adding -/

/-- C1: when the input is empty or holds only white space, `addTask` leaves the task
sequence unchanged (and with it the whole state). -/
theorem addTask_blank_unchanged (app : TodoApp) (taskId createdAt : JSString)
    (w : WriteOutcome) (h : ∀ c ∈ app.inputValue, isWhiteSpace c = true) :
    (addTask app taskId createdAt w).tasks = app.tasks ∧
      (addTask app taskId createdAt w).tasks.length = app.tasks.length ∧
      addTask app taskId createdAt w = app := by
  have h0 : addTask app taskId createdAt w = app := by
    simp [addTask, trim_eq_nil_of_whiteSpace app.inputValue h]
  simp [h0]

/-- An instance of C1: three blanks and a tab in the input, one task in the list. -/
theorem addTask_blank_unchanged_witness :
    (∀ c ∈ (samplePage [sampleTask] (utf16 "  \t ")).inputValue, isWhiteSpace c = true) ∧
    (addTask (samplePage [sampleTask] (utf16 "  \t ")) (utf16 "2") (utf16 "u") .stored).tasks
      = [sampleTask] :=
  ⟨by decide, (addTask_blank_unchanged _ _ _ _ (by decide)).1⟩

/-- C2: when the trimmed input is not empty, `addTask` puts one new task in front of the
sequence, whose text is the escaped trimmed input and which is not completed, and keeps the
old sequence behind it; adding "Buy milk" and then "Walk dog" gives a sequence whose texts
start with "Walk dog", "Buy milk". -/
theorem addTask_prepends (app : TodoApp) (taskId createdAt : JSString) (w : WriteOutcome)
    (id1 at1 id2 at2 : JSString) (w1 w2 : WriteOutcome)
    (h : trim app.inputValue ≠ []) :
    (addTask app taskId createdAt w).tasks
        = { id := taskId, text := sanitizeInput (trim app.inputValue), completed := false,
            createdAt := createdAt } :: app.tasks ∧
      (addTask { addTask { app with inputValue := utf16 "Buy milk" } id1 at1 w1 with
          inputValue := utf16 "Walk dog" } id2 at2 w2).tasks.map (fun t => t.text)
        = utf16 "Walk dog" :: utf16 "Buy milk" :: app.tasks.map (fun t => t.text) := by
  constructor
  · simp [addTask, h]
  · have e1 : trim (utf16 "Buy milk") = utf16 "Buy milk" := by decide
    have e2 : trim (utf16 "Walk dog") = utf16 "Walk dog" := by decide
    have n1 : utf16 "Buy milk" ≠ [] := by decide
    have n2 : utf16 "Walk dog" ≠ [] := by decide
    have s1 : sanitizeInput (utf16 "Buy milk") = utf16 "Buy milk" := by decide
    have s2 : sanitizeInput (utf16 "Walk dog") = utf16 "Walk dog" := by decide
    simp [addTask, e1, e2, n1, n2, s1, s2]

/-- An instance of C2: " a<b " is typed on the empty page. -/
theorem addTask_prepends_witness :
    trim (samplePage [] (utf16 " a<b ")).inputValue ≠ [] ∧
    (addTask (samplePage [] (utf16 " a<b ")) (utf16 "7") (utf16 "t") .stored).tasks
      = [{ id := utf16 "7", text := utf16 "a&lt;b", completed := false,
           createdAt := utf16 "t" }] :=
  ⟨by decide,
    (addTask_prepends (samplePage [] (utf16 " a<b ")) (utf16 "7") (utf16 "t")
      .stored [] [] [] [] .stored .stored (by decide)).1.trans (by decide)⟩

/-! ## Toggling -/

/-- C3: toggling the same identifier twice gives back the original sequence, and so the
original completed flag of the task with that identifier. -/
theorem toggleTask_twice (app : TodoApp) (taskId : JSString) (w1 w2 : WriteOutcome) :
    (toggleTask (toggleTask app taskId w1) taskId w2).tasks = app.tasks ∧
      ((toggleTask (toggleTask app taskId w1) taskId w2).tasks.find?
          (fun t => t.id = taskId)).map (fun t => t.completed)
        = (app.tasks.find? (fun t => t.id = taskId)).map (fun t => t.completed) := by
  have h : (toggleTask (toggleTask app taskId w1) taskId w2).tasks = app.tasks := by
    rw [tasks_toggleTask, tasks_toggleTask, toggleFirst_toggleFirst]
  rw [h]
  exact ⟨rfl, rfl⟩

/-- C10: `toggleTask` keeps the length and the order of the sequence; the first task with
the identifier gets its completed flag negated and keeps its other fields; every other task
is unchanged; and when no task has the identifier the sequence is unchanged. -/
theorem toggleTask_spec (app : TodoApp) (taskId : JSString) (w : WriteOutcome) :
    (toggleTask app taskId w).tasks.length = app.tasks.length ∧
      (∀ i : Nat, (toggleTask app taskId w).tasks[i]? = (app.tasks[i]?).map fun t =>
        if i = app.tasks.findIdx (fun t => t.id = taskId) then
          { id := t.id, text := t.text, completed := !t.completed, createdAt := t.createdAt }
        else t) ∧
      ((∀ t ∈ app.tasks, t.id ≠ taskId) → (toggleTask app taskId w).tasks = app.tasks) := by
  rw [tasks_toggleTask]
  exact ⟨toggleFirst_length _ _, toggleFirst_getElem? _ _, toggleFirst_of_not_mem _ _⟩

/-- An instance of C10: no task of the list has the identifier "9". -/
theorem toggleTask_spec_witness :
    (∀ t ∈ (samplePage [sampleTask] []).tasks, t.id ≠ utf16 "9") ∧
    (toggleTask (samplePage [sampleTask] []) (utf16 "9") .stored).tasks = [sampleTask] :=
  ⟨by decide, (toggleTask_spec _ _ _).2.2 (by decide)⟩

end TodoApp

namespace TodoApp

/-! ## Deleting -/

theorem countP_id_eq_one_of_nodup (taskId : JSString) (l : List Task)
    (hn : (l.map fun t => t.id).Nodup) (h : ∃ t ∈ l, t.id = taskId) :
    l.countP (fun t => t.id = taskId) = 1 := by
  induction l with
  | nil => simp at h
  | cons t rest ih =>
    rw [List.map_cons, List.nodup_cons] at hn
    by_cases ht : t.id = taskId
    · have hrest : ∀ u ∈ rest, ¬ u.id = taskId := by
        intro u hu hid
        exact hn.1 (List.mem_map.mpr ⟨u, hu, by rw [hid, ht]⟩)
      have h0 : rest.countP (fun t => t.id = taskId) = 0 := by
        rw [List.countP_eq_zero]
        intro u hu
        simpa using hrest u hu
      simp [List.countP_cons, ht, h0]
    · have h2 : ∃ u ∈ rest, u.id = taskId := by
        obtain ⟨u, hu, hid⟩ := h
        rcases List.mem_cons.mp hu with rfl | hu
        · exact absurd hid ht
        · exact ⟨u, hu, hid⟩
      simp [List.countP_cons, ht, ih hn.2 h2]

theorem length_filter_ne_add_countP (taskId : JSString) (l : List Task) :
    (l.filter fun t => t.id ≠ taskId).length + l.countP (fun t => t.id = taskId)
      = l.length := by
  induction l with
  | nil => rfl
  | cons t rest ih =>
    simp only [ne_eq, decide_not] at ih
    by_cases ht : t.id = taskId
    · simp [List.filter_cons, List.countP_cons, ht]
      omega
    · simp [List.filter_cons, List.countP_cons, ht]
      omega

/-- C4, refuted as stated: with two tasks of the same identifier the removal step removes
both, so the result is two elements shorter, not one. -/
theorem deleteTask_removes_every_match :
    (∃ t ∈ (samplePage [sampleTask, sampleTask] []).tasks, t.id = utf16 "1") ∧
      (deleteTaskCallback (samplePage [sampleTask, sampleTask] []) (utf16 "1")
        .stored).tasks = [] ∧
      (deleteTaskCallback (samplePage [sampleTask, sampleTask] []) (utf16 "1")
        .stored).tasks.length + 1 ≠ (samplePage [sampleTask, sampleTask] []).tasks.length := by
  decide

/-- C4, amended: the removal step removes every task with the identifier. The result holds
no task with it, is a subsequence of the original that keeps every other task, and is
shorter by the number of tasks with the identifier, which is at least one; it is exactly one
element shorter when identifiers are pairwise distinct. -/
theorem deleteTask_removes_matches (app : TodoApp) (taskId : JSString) (w : WriteOutcome)
    (h : ∃ t ∈ app.tasks, t.id = taskId) :
    (deleteTaskCallback app taskId w).tasks.length
          + app.tasks.countP (fun t => t.id = taskId) = app.tasks.length ∧
      1 ≤ app.tasks.countP (fun t => t.id = taskId) ∧
      (∀ t ∈ (deleteTaskCallback app taskId w).tasks, t.id ≠ taskId) ∧
      (deleteTaskCallback app taskId w).tasks.Sublist app.tasks ∧
      (∀ t : Task, t.id ≠ taskId →
        (deleteTaskCallback app taskId w).tasks.count t = app.tasks.count t) ∧
      ((app.tasks.map fun t => t.id).Nodup →
        (deleteTaskCallback app taskId w).tasks.length + 1 = app.tasks.length) := by
  rw [tasks_deleteTaskCallback]
  refine ⟨length_filter_ne_add_countP _ _, ?_, ?_, List.filter_sublist _, ?_, ?_⟩
  · obtain ⟨t, ht, hid⟩ := h
    exact List.countP_pos_iff.mpr ⟨t, ht, by simpa using hid⟩
  · intro t ht
    simpa using (List.mem_filter.mp ht).2
  · intro t ht
    rw [List.count_filter]
    simpa using ht
  · intro hn
    have h1 := countP_id_eq_one_of_nodup taskId app.tasks hn h
    have h2 := length_filter_ne_add_countP taskId app.tasks
    omega

/-- An instance of amended C4: deleting "1" from a list of two tasks with distinct
identifiers leaves the other one. -/
theorem deleteTask_removes_matches_witness :
    (∃ t ∈ (samplePage [sampleTask, { sampleTask with id := utf16 "2" }] []).tasks,
        t.id = utf16 "1") ∧
      (deleteTaskCallback (samplePage [sampleTask, { sampleTask with id := utf16 "2" }] [])
        (utf16 "1") .stored).tasks.length + 1
        = (samplePage [sampleTask, { sampleTask with id := utf16 "2" }] []).tasks.length :=
  ⟨by decide,
    (deleteTask_removes_matches _ (utf16 "1") .stored (by decide)).2.2.2.2.2 (by decide)⟩

/-- C5: when no task has the identifier, the removal step leaves the sequence unchanged;
and running the removal step a second time with the same identifier changes nothing. -/
theorem deleteTask_absent_noop (app : TodoApp) (taskId : JSString) (w1 w2 : WriteOutcome) :
    ((∀ t ∈ app.tasks, t.id ≠ taskId) → (deleteTaskCallback app taskId w1).tasks = app.tasks) ∧
      (deleteTaskCallback (deleteTaskCallback app taskId w1) taskId w2).tasks
        = (deleteTaskCallback app taskId w1).tasks := by
  constructor
  · intro h
    rw [tasks_deleteTaskCallback, List.filter_eq_self]
    intro t ht
    simpa using h t ht
  · simp only [tasks_deleteTaskCallback, List.filter_filter]
    congr 1
    funext t
    simp

/-- An instance of C5: no task of the list has the identifier "9". -/
theorem deleteTask_absent_noop_witness :
    (∀ t ∈ (samplePage [sampleTask] []).tasks, t.id ≠ utf16 "9") ∧
      (deleteTaskCallback (samplePage [sampleTask] []) (utf16 "9") .stored).tasks
        = (samplePage [sampleTask] []).tasks :=
  ⟨by decide, (deleteTask_absent_noop _ (utf16 "9") .stored .stored).1 (by decide)⟩

end TodoApp

namespace TodoApp

/-! ## The counters -/

theorem decimalAux_spec (fuel n : Nat) (acc : JSString) (h : n < fuel) :
    ∃ ds : JSString, decimalAux fuel n acc = ds ++ acc ∧ ds ≠ [] ∧
      (∀ d ∈ ds, isDigit d = true) ∧
      ds.foldl (fun a d => 10 * a + (d - 0x30)) 0 = n := by
  induction fuel generalizing n acc with
  | zero => omega
  | succ fuel ih =>
    unfold decimalAux
    by_cases hn : n < 10
    · refine ⟨[0x30 + n], by simp [hn], by simp, ?_, by simp⟩
      intro d hd
      simp only [List.mem_singleton] at hd
      subst hd
      simp only [isDigit, Bool.and_eq_true, decide_eq_true_eq]
      omega
    · have hlt : n / 10 < fuel := by omega
      obtain ⟨ds, h1, _, h3, h4⟩ := ih (n / 10) ((0x30 + n % 10) :: acc) hlt
      refine ⟨ds ++ [0x30 + n % 10], by simp [hn, h1], by simp, ?_, ?_⟩
      · intro d hd
        rcases List.mem_append.mp hd with hd | hd
        · exact h3 d hd
        · simp only [List.mem_singleton] at hd
          subst hd
          simp only [isDigit, Bool.and_eq_true, decide_eq_true_eq]
          omega
      · rw [List.foldl_append, h4]
        simp only [List.foldl_cons, List.foldl_nil]
        omega

theorem takeWhile_append_stop (p : Nat → Bool) (ds : JSString) (c : Nat) (rest : JSString)
    (hds : ∀ d ∈ ds, p d = true) (hc : p c = false) :
    (ds ++ c :: rest).takeWhile p = ds := by
  induction ds with
  | nil => simp [List.takeWhile_cons, hc]
  | cons d ds ih =>
    have hd : p d = true := hds d (List.mem_cons_self _ _)
    simp [List.takeWhile_cons, hd, ih fun x hx => hds x (List.mem_cons_of_mem _ hx)]

theorem leadingNumber_numberToString (n c : Nat) (rest : JSString) (hc : isDigit c = false) :
    leadingNumber (numberToString n ++ c :: rest) = some n := by
  obtain ⟨ds, h1, h2, h3, h4⟩ := decimalAux_spec (n + 1) n [] (Nat.lt_succ_self n)
  have e : numberToString n = ds := by simpa [numberToString] using h1
  rw [e]
  unfold leadingNumber
  rw [takeWhile_append_stop isDigit ds c rest h3 hc]
  simp [h2, h4]

theorem countersInSync_render (app : TodoApp) : CountersInSync (render app) := by
  unfold render renderEmptyState renderStats renderTasks CountersInSync
  split <;> exact ⟨rfl, rfl⟩

theorem countersInSync_of_reachable (app : TodoApp) (h : Reachable app) :
    CountersInSync app := by
  induction h with
  | construct page app readThrows hc =>
    unfold construct at hc
    split at hc
    · cases hc
      exact countersInSync_render _
    · cases hc
  | typeInput app text _ ih => exact ih
  | addTask app taskId createdAt w _ ih =>
    unfold addTask
    simp only
    split
    · exact ih
    · exact countersInSync_render _
  | toggleTask app taskId w _ ih =>
    unfold toggleTask
    split
    · exact countersInSync_render _
    · exact ih
  | deleteTaskCallback app taskId w _ ih => exact countersInSync_render _
  | clearCompleted app w _ ih => exact countersInSync_render _
  | clearAll app confirmed w _ ih =>
    unfold clearAll
    split
    · exact countersInSync_render _
    · exact ih

theorem displayedCounts_of_inSync (app : TodoApp) (h : CountersInSync app) :
    displayedCounts app
      = some (app.tasks.length, (app.tasks.filter fun t => t.completed).length) := by
  obtain ⟨h1, h2⟩ := h
  have e1 : leadingNumber app.taskCount = some app.tasks.length := by
    rw [h1, List.append_assoc]
    exact leadingNumber_numberToString _ 0x20 _ (by decide)
  have e2 : leadingNumber app.completedCount
      = some (app.tasks.filter fun t => t.completed).length := by
    rw [h2]
    exact leadingNumber_numberToString _ 0x20 _ (by decide)
  simp [displayedCounts, e1, e2]

/-- C7: in every state reachable from construction by typing, `addTask`, `toggleTask`, the
removal step of `deleteTask`, `clearCompleted` and `clearAll`, the two counters show the
length of the current sequence and the number of its completed tasks. -/
theorem counts_in_sync (app : TodoApp) (h : Reachable app) :
    displayedCounts app
        = some (app.tasks.length, (app.tasks.filter fun t => t.completed).length) ∧
      app.taskCount = numberToString app.tasks.length ++ utf16 " task"
        ++ (if app.tasks.length ≠ 1 then utf16 "s" else []) ∧
      app.completedCount
        = numberToString (app.tasks.filter fun t => t.completed).length
          ++ utf16 " completed" :=
  ⟨displayedCounts_of_inSync app (countersInSync_of_reachable app h),
    countersInSync_of_reachable app h⟩

/-- An instance of C7: after construction on an empty page and one `addTask`, the counters
show one task, none completed. -/
theorem counts_in_sync_witness :
    Reachable afterOneAdd ∧ displayedCounts afterOneAdd = some (1, 0) :=
  ⟨Reachable.addTask _ _ _ _
      (Reachable.typeInput _ _ (Reachable.construct emptyPage _ false rfl)),
    (counts_in_sync afterOneAdd
      (Reachable.addTask _ _ _ _
        (Reachable.typeInput _ _ (Reachable.construct emptyPage _ false rfl)))).1.trans
      (by decide)⟩

end TodoApp

namespace TodoApp

/-! ## Strings survive `JSON.stringify` and `JSON.parse` -/

theorem hexValue_hexDigit (d : Nat) (h : d < 16) : hexValue (hexDigit d) = some d := by
  interval_cases d <;> rfl

theorem hex4_unicodeEscape (c : Nat) (h : c < 65536) :
    hex4 (hexDigit (c / 4096 % 16)) (hexDigit (c / 256 % 16)) (hexDigit (c / 16 % 16))
      (hexDigit (c % 16)) = some c := by
  unfold hex4
  rw [hexValue_hexDigit _ (Nat.mod_lt _ (by decide)),
    hexValue_hexDigit _ (Nat.mod_lt _ (by decide)),
    hexValue_hexDigit _ (Nat.mod_lt _ (by decide)),
    hexValue_hexDigit _ (Nat.mod_lt _ (by decide))]
  simp only [Option.some.injEq]
  omega

theorem parseStringChars_unicodeEscape (c : Nat) (h : c < 65536) (tail : JSString) :
    parseStringChars (unicodeEscape c ++ tail)
      = (parseStringChars tail).map fun p => (c :: p.1, p.2) := by
  rw [parseStringChars.eq_def]
  simp [unicodeEscape, hex4_unicodeEscape c h]

theorem parseStringChars_literal (c : Nat) (tail : JSString) (h1 : c ≠ 0x22) (h2 : c ≠ 0x5C)
    (h3 : ¬ c < 0x20) :
    parseStringChars (c :: tail) = (parseStringChars tail).map fun p => (c :: p.1, p.2) := by
  rw [parseStringChars.eq_def]
  simp [h1, h2, h3]

theorem parseStringChars_quoteUnit (c : Nat) (tail : JSString) :
    parseStringChars (quoteUnit c ++ tail)
      = (parseStringChars tail).map fun p => (c :: p.1, p.2) := by
  unfold quoteUnit
  split
  · subst c
    rw [parseStringChars.eq_def]
    simp [singleEscape]
  split
  · subst c
    rw [parseStringChars.eq_def]
    simp [singleEscape]
  split
  · subst c
    rw [parseStringChars.eq_def]
    simp [singleEscape]
  split
  · subst c
    rw [parseStringChars.eq_def]
    simp [singleEscape]
  split
  · subst c
    rw [parseStringChars.eq_def]
    simp [singleEscape]
  split
  · subst c
    rw [parseStringChars.eq_def]
    simp [singleEscape]
  split
  · subst c
    rw [parseStringChars.eq_def]
    simp [singleEscape]
  split
  · rename_i hesc
    apply parseStringChars_unicodeEscape
    simp only [Bool.or_eq_true, Bool.and_eq_true, decide_eq_true_eq] at hesc
    omega
  · rename_i h22 h5c hesc
    simp only [Bool.or_eq_true, Bool.and_eq_true, decide_eq_true_eq, not_or] at hesc
    exact parseStringChars_literal c tail h22 h5c hesc.1

theorem parseStringChars_quoteChars (s rest : JSString) :
    parseStringChars (quoteChars s ++ 0x22 :: rest) = some (s, rest) := by
  induction s using quoteChars.induct with
  | case1 =>
    rw [parseStringChars.eq_def]
    simp [quoteChars]
  | case2 c =>
    simp only [quoteChars]
    rw [parseStringChars_quoteUnit, parseStringChars.eq_def]
    simp
  | case3 c d tail hpair ih =>
    simp only [quoteChars, hpair, if_true]
    simp only [isLeadingSurrogate, isTrailingSurrogate, Bool.and_eq_true,
      decide_eq_true_eq] at hpair
    rw [List.cons_append, List.cons_append,
      parseStringChars_literal c _ (by omega) (by omega) (by omega),
      parseStringChars_literal d _ (by omega) (by omega) (by omega), ih]
    rfl
  | case4 c d tail hpair ih =>
    simp only [quoteChars, hpair]
    rw [if_neg (by simp), List.append_assoc, parseStringChars_quoteUnit, ih]
    rfl

end TodoApp

namespace TodoApp

/-! ## Task records survive `JSON.stringify` and `JSON.parse` -/

theorem parseJSON_string (fuel : Nat) (s rest : JSString) :
    parseJSON (fuel + 1) .value (quoteJSONString s ++ rest) = some (.string s, rest) := by
  rw [parseJSON, parseStep]
  simp [quoteJSONString, skipWhiteSpace, isJSONWhiteSpace, parseStringChars_quoteChars]

theorem parseJSON_boolean (fuel : Nat) (b : Bool) (rest : JSString) :
    parseJSON (fuel + 1) .value (booleanToString b ++ rest) = some (.bool b, rest) := by
  have ht : utf16 "true" = [0x74, 0x72, 0x75, 0x65] := by decide
  have hf : utf16 "false" = [0x66, 0x61, 0x6C, 0x73, 0x65] := by decide
  have hrue : utf16 "rue" = [0x72, 0x75, 0x65] := by decide
  have halse : utf16 "alse" = [0x61, 0x6C, 0x73, 0x65] := by decide
  rw [parseJSON, parseStep]
  cases b
  · simp [booleanToString, hf, halse, skipWhiteSpace, isJSONWhiteSpace, dropPrefix]
  · simp [booleanToString, ht, hrue, skipWhiteSpace, isJSONWhiteSpace, dropPrefix]

theorem parseJSON_member_more (fuel : Nat) (acc : List (JSString × JSValue))
    (key value rest : JSString) (v : JSValue)
    (hv : parseJSON fuel .value (value ++ 0x2C :: rest) = some (v, 0x2C :: rest)) :
    parseJSON (fuel + 1) (.members acc) (stringifyMember key value ++ 0x2C :: rest)
      = parseJSON fuel (.members (setProperty acc key v)) rest := by
  rw [parseJSON, parseStep]
  simp [stringifyMember, quoteJSONString, skipWhiteSpace, isJSONWhiteSpace,
    parseStringChars_quoteChars, hv]

theorem parseJSON_member_last (fuel : Nat) (acc : List (JSString × JSValue))
    (key value rest : JSString) (v : JSValue)
    (hv : parseJSON fuel .value (value ++ 0x7D :: rest) = some (v, 0x7D :: rest)) :
    parseJSON (fuel + 1) (.members acc) (stringifyMember key value ++ 0x7D :: rest)
      = some (.object (setProperty acc key v), rest) := by
  rw [parseJSON, parseStep]
  simp [stringifyMember, quoteJSONString, skipWhiteSpace, isJSONWhiteSpace,
    parseStringChars_quoteChars, hv]

theorem parseJSON_task (fuel : Nat) (t : Task) (rest : JSString) :
    parseJSON (fuel + 6) .value (stringifyTask t ++ rest) = some (taskToJS t, rest) := by
  have k1 : utf16 "id" ≠ utf16 "text" := by decide
  have k2 : utf16 "id" ≠ utf16 "completed" := by decide
  have k3 : utf16 "text" ≠ utf16 "completed" := by decide
  have k4 : utf16 "id" ≠ utf16 "createdAt" := by decide
  have k5 : utf16 "text" ≠ utf16 "createdAt" := by decide
  have k6 : utf16 "completed" ≠ utf16 "createdAt" := by decide
  have hopen : ∀ body tail : JSString,
      parseJSON (fuel + 6) .value (0x7B :: (stringifyMember (utf16 "id") body ++ tail))
        = parseJSON (fuel + 5) (.members []) (stringifyMember (utf16 "id") body ++ tail) := by
    intro body tail
    rw [parseJSON, parseStep]
    simp [stringifyMember, quoteJSONString, skipWhiteSpace, isJSONWhiteSpace]
  simp only [stringifyTask, List.cons_append, List.append_assoc, List.nil_append]
  rw [hopen,
    parseJSON_member_more (fuel + 4) _ _ _ _ _ (parseJSON_string (fuel + 3) _ _),
    parseJSON_member_more (fuel + 3) _ _ _ _ _ (parseJSON_string (fuel + 2) _ _),
    parseJSON_member_more (fuel + 2) _ _ _ _ _ (parseJSON_boolean (fuel + 1) _ _),
    parseJSON_member_last (fuel + 1) _ _ _ _ _ (parseJSON_string fuel _ _)]
  simp [setProperty, taskToJS, k1, k2, k3, k4, k5, k6]

end TodoApp

namespace TodoApp

theorem stringifyElements_cons_cons (t u : Task) (ts : List Task) :
    stringifyElements (t :: u :: ts) = stringifyTask t ++ 0x2C :: stringifyElements (u :: ts) :=
  rfl

theorem stringifyElements_head (t : Task) (ts : List Task) :
    ∃ tail : JSString, stringifyElements (t :: ts) = 0x7B :: tail := by
  cases ts with
  | nil => exact ⟨_, rfl⟩
  | cons u ts => exact ⟨_, rfl⟩

theorem stringifyElements_length (t : Task) (ts : List Task) :
    2 * (ts.length + 1) ≤ (stringifyElements (t :: ts)).length := by
  have htask : ∀ u : Task, 2 ≤ (stringifyTask u).length := by
    intro u
    simp only [stringifyTask, stringifyMember, quoteJSONString, List.length_cons,
      List.length_append, List.cons_append]
    omega
  induction ts generalizing t with
  | nil => simpa [stringifyElements] using htask t
  | cons u ts ih =>
    have := htask t
    have := ih u
    rw [stringifyElements_cons_cons]
    simp only [List.length_append, List.length_cons]
    omega

theorem parseJSON_element_more (fuel : Nat) (acc : List JSValue) (value rest : JSString)
    (v : JSValue)
    (hv : parseJSON fuel .value (value ++ 0x2C :: rest) = some (v, 0x2C :: rest)) :
    parseJSON (fuel + 1) (.elements acc) (value ++ 0x2C :: rest)
      = parseJSON fuel (.elements (acc ++ [v])) rest := by
  rw [parseJSON, parseStep]
  simp [hv, skipWhiteSpace, isJSONWhiteSpace]

theorem parseJSON_element_last (fuel : Nat) (acc : List JSValue) (value rest : JSString)
    (v : JSValue)
    (hv : parseJSON fuel .value (value ++ 0x5D :: rest) = some (v, 0x5D :: rest)) :
    parseJSON (fuel + 1) (.elements acc) (value ++ 0x5D :: rest)
      = some (.array (acc ++ [v]), rest) := by
  rw [parseJSON, parseStep]
  simp [hv, skipWhiteSpace, isJSONWhiteSpace]

theorem parseJSON_elements (ts : List Task) (t : Task) (acc : List JSValue) (fuel : Nat)
    (rest : JSString) :
    parseJSON (fuel + 7 + ts.length) (.elements acc)
        (stringifyElements (t :: ts) ++ 0x5D :: rest)
      = some (.array (acc ++ (t :: ts).map taskToJS), rest) := by
  induction ts generalizing t acc with
  | nil =>
    rw [List.length_nil, Nat.add_zero,
      show stringifyElements [t] = stringifyTask t from rfl,
      parseJSON_element_last (fuel + 6) _ _ _ _ (parseJSON_task fuel _ _)]
    rfl
  | cons u ts ih =>
    have hfuel : fuel + 7 + (u :: ts).length = (fuel + 7 + ts.length) + 1 := by
      simp only [List.length_cons]
      omega
    have hvalue : ∀ tail : JSString,
        parseJSON (fuel + 7 + ts.length) .value (stringifyTask t ++ tail)
          = some (taskToJS t, tail) := by
      intro tail
      have h6 : fuel + 7 + ts.length = (fuel + 1 + ts.length) + 6 := by omega
      rw [h6]
      exact parseJSON_task _ _ _
    rw [hfuel, stringifyElements_cons_cons, List.append_assoc, List.cons_append,
      parseJSON_element_more _ _ _ _ _ (hvalue _), ih]
    simp

/-- `JSON.parse` gives back, record for record, the array `JSON.stringify` was given. -/
theorem jsonParse_stringifyTasks (tasks : List Task) :
    jsonParse (stringifyTasks tasks) = some (.array (tasks.map taskToJS)) := by
  cases tasks with
  | nil => rfl
  | cons t ts =>
    obtain ⟨tail, htail⟩ := stringifyElements_head t ts
    have hlen := stringifyElements_length t ts
    obtain ⟨k, hk⟩ : ∃ k, parseFuel .value (stringifyTasks (t :: ts)) = (k + 7 + ts.length) + 1 :=
      ⟨parseFuel .value (stringifyTasks (t :: ts)) - (7 + ts.length + 1), by
        simp only [parseFuel, stringifyTasks, List.length_cons, List.length_append,
          List.length_nil]
        omega⟩
    have hstep : parseJSON ((k + 7 + ts.length) + 1) .value (stringifyTasks (t :: ts))
        = parseJSON (k + 7 + ts.length) (.elements [])
            (stringifyElements (t :: ts) ++ 0x5D :: []) := by
      rw [parseJSON, parseStep]
      simp [stringifyTasks, htail, skipWhiteSpace, isJSONWhiteSpace]
    unfold jsonParse
    rw [hk, hstep, parseJSON_elements]
    simp [skipWhiteSpace]

theorem taskOfJS_taskToJS (t : Task) : taskOfJS (taskToJS t) = some t := by
  simp [taskOfJS, taskToJS]

theorem tasksOfElements_map (tasks : List Task) :
    tasksOfElements (tasks.map taskToJS) = some tasks := by
  induction tasks with
  | nil => rfl
  | cons t ts ih => simp [tasksOfElements, taskOfJS_taskToJS, ih]

end TodoApp

namespace TodoApp

/-! ## Loading what was saved -/

theorem stringifyTasks_ne_nil (tasks : List Task) : stringifyTasks tasks ≠ [] := by
  simp [stringifyTasks]

theorem loadTasks_stringifyTasks (tasks : List Task) :
    loadTasks (some (stringifyTasks tasks)) false = .array (tasks.map taskToJS) := by
  simp [loadTasks, stringifyTasks_ne_nil, jsonParse_stringifyTasks]

/-- C6: after `saveTasks` has written the sequence (the write succeeding), `loadTasks`
returns an array with one record per task, equal field by field and in the same order; read
back as task records it is the sequence that was saved, and a `TodoApp` constructed on that
storage starts with it. -/
theorem save_load_roundtrip (app : TodoApp) :
    loadTasks (saveTasks app .stored).storage false = .array (app.tasks.map taskToJS) ∧
      tasksOfJS (loadTasks (saveTasks app .stored).storage false) = some app.tasks ∧
      (construct (saveTasks app .stored) false).map (fun loaded => loaded.tasks)
        = some app.tasks := by
  have h : loadTasks (saveTasks app .stored).storage false
      = .array (app.tasks.map taskToJS) := loadTasks_stringifyTasks app.tasks
  refine ⟨h, ?_, ?_⟩
  · rw [h]
    exact tasksOfElements_map app.tasks
  · unfold construct
    rw [h]
    simp [tasksOfJS, tasksOfElements_map]

/-- C9: `loadTasks` is total, and it returns the empty array when reading the storage
throws, when the key is absent and when the stored text is not JSON. -/
theorem loadTasks_fails_soft (storage : Option JSString) (readThrows : Bool)
    (h : readThrows = true ∨ storage = none ∨
      ∃ stored, storage = some stored ∧ jsonParse stored = none) :
    loadTasks storage readThrows = .array [] ∧
      tasksOfJS (loadTasks storage readThrows) = some [] := by
  have h0 : loadTasks storage readThrows = .array [] := by
    unfold loadTasks
    rcases h with h | h | ⟨stored, h, hp⟩
    · simp [h]
    · subst h
      split <;> rfl
    · subst h
      split
      · rfl
      · simp only [hp]
        split <;> rfl
  rw [h0]
  exact ⟨rfl, rfl⟩

/-- An instance of C9: the storage holds the unterminated text `[1, 2`. -/
theorem loadTasks_fails_soft_witness :
    (false = true ∨ some (utf16 "[1, 2") = none ∨
      ∃ stored, some (utf16 "[1, 2") = some stored ∧ jsonParse stored = none) ∧
    loadTasks (some (utf16 "[1, 2")) false = .array [] :=
  ⟨Or.inr (Or.inr ⟨utf16 "[1, 2", rfl, rfl⟩),
    (loadTasks_fails_soft (some (utf16 "[1, 2")) false
      (Or.inr (Or.inr ⟨utf16 "[1, 2", rfl, rfl⟩))).1⟩

end TodoApp

namespace TodoApp

/-! ## Escaping -/

theorem escapeTextUnit_no_angle (c : Nat) :
    ∀ d ∈ escapeTextUnit c, d ≠ 0x3C ∧ d ≠ 0x3E := by
  have hamp : utf16 "&amp;" = [0x26, 0x61, 0x6D, 0x70, 0x3B] := by decide
  have hnbsp : utf16 "&nbsp;" = [0x26, 0x6E, 0x62, 0x73, 0x70, 0x3B] := by decide
  have hlt : utf16 "&lt;" = [0x26, 0x6C, 0x74, 0x3B] := by decide
  have hgt : utf16 "&gt;" = [0x26, 0x67, 0x74, 0x3B] := by decide
  intro d hd
  unfold escapeTextUnit at hd
  split at hd
  · rw [hamp] at hd
    simp at hd
    omega
  split at hd
  · rw [hnbsp] at hd
    simp at hd
    omega
  split at hd
  · rw [hlt] at hd
    simp at hd
    omega
  split at hd
  · rw [hgt] at hd
    simp at hd
    omega
  · simp at hd
    omega

/-- The text `sanitizeInput` returns holds neither `<` nor `>`: in element content it cannot
open a tag. -/
theorem sanitizeInput_no_angle (text : JSString) :
    ∀ d ∈ sanitizeInput text, d ≠ 0x3C ∧ d ≠ 0x3E := by
  intro d hd
  unfold sanitizeInput at hd
  obtain ⟨c, _, hc⟩ := List.mem_flatMap.mp hd
  exact escapeTextUnit_no_angle c d hc

set_option maxRecDepth 100000 in
/-- C8, the failing input: `x" onclick="alert(1)` is stored as typed, the double quote not
being escaped, and in the markup of the rendered task the checkbox `div` gets, after the five
attributes of the template, an `onclick` attribute holding `alert(1)`. -/
theorem renderTasks_attribute_injection :
    (addTask (samplePage [] injectionText) (utf16 "1") (utf16 "t") .stored).tasks.map
        (fun t => t.text) = [injectionText] ∧
      (addTask (samplePage [] injectionText) (utf16 "1") (utf16 "t") .stored).tasksList.map
        (fun li => firstStartTag li.innerHTML)
        = [some { name := utf16 "div",
                  attributes := [(utf16 "class", utf16 "checkbox"),
                    (utf16 "role", utf16 "checkbox"), (utf16 "aria-checked", utf16 "false"),
                    (utf16 "tabindex", utf16 "0"),
                    (utf16 "aria-label", utf16 "Mark as complete: x"),
                    (utf16 "onclick", utf16 "alert(1)")] }] := by
  constructor <;> rfl

end TodoApp

namespace TodoApp

/-! ## The fuel of the parser is enough -/

theorem skipWhiteSpace_length (cs : JSString) : (skipWhiteSpace cs).length ≤ cs.length :=
  (List.dropWhile_sublist _).length_le

theorem parseStringChars_length_aux (n : Nat) :
    ∀ cs : JSString, cs.length ≤ n →
      ∀ p, parseStringChars cs = some p → p.2.length ≤ cs.length := by
  induction n with
  | zero =>
    intro cs hcs p h
    have : cs = [] := List.length_eq_zero.mp (Nat.le_zero.mp hcs)
    subst this
    simp [parseStringChars] at h
  | succ n ih =>
    intro cs hcs p h
    rw [parseStringChars.eq_def] at h
    split at h
    · cases h
    · rename_i c rest
      simp only [List.length_cons] at hcs ⊢
      split at h
      · cases h
        simp
      split at h
      · split at h
        · cases h
        · rename_i e rest1
          simp only [List.length_cons] at hcs ⊢
          split at h
          · split at h
            · rename_i h1 h2 h3 h4 rest2
              simp only [List.length_cons] at hcs ⊢
              split at h
              · obtain ⟨q, hq, rfl⟩ := Option.map_eq_some'.mp h
                have := ih rest2 (by omega) q hq
                simp only
                omega
              · cases h
            · cases h
          · split at h
            · obtain ⟨q, hq, rfl⟩ := Option.map_eq_some'.mp h
              have := ih rest1 (by omega) q hq
              simp only
              omega
            · cases h
      split at h
      · cases h
      · obtain ⟨q, hq, rfl⟩ := Option.map_eq_some'.mp h
        have := ih rest (by omega) q hq
        simp only
        omega

theorem parseStringChars_length (cs : JSString) (p : JSString × JSString)
    (h : parseStringChars cs = some p) : p.2.length ≤ cs.length :=
  parseStringChars_length_aux cs.length cs (Nat.le_refl _) p h

theorem dropPrefix_length (word cs rest : JSString) (h : dropPrefix word cs = some rest) :
    rest.length ≤ cs.length := by
  unfold dropPrefix at h
  split at h
  · cases h
    simp
  · cases h

theorem parseDigits_length (cs : JSString) (p : JSString × JSString)
    (h : parseDigits cs = some p) : p.2.length ≤ cs.length := by
  unfold parseDigits at h
  split at h
  · cases h
  · cases h
    exact (List.dropWhile_sublist _).length_le

theorem parseInt_length (cs : JSString) (p : JSString × JSString)
    (h : parseInt cs = some p) : p.2.length ≤ cs.length := by
  unfold parseInt at h
  split at h
  · cases h
  · rename_i c rest
    split at h
    · cases h
      simp
    split at h
    · cases h
      have := (List.dropWhile_sublist isDigit (l := rest)).length_le
      simp only [List.length_cons]
      omega
    · cases h

theorem parseFraction_length (cs : JSString) (p : JSString × JSString)
    (h : parseFraction cs = some p) : p.2.length ≤ cs.length := by
  unfold parseFraction at h
  split at h
  · cases h
    simp
  · rename_i c rest
    split at h
    · obtain ⟨q, hq, rfl⟩ := Option.map_eq_some'.mp h
      have := parseDigits_length rest q hq
      simp only [List.length_cons]
      omega
    · cases h
      simp

theorem parseExponent_length (cs : JSString) (p : JSString × JSString)
    (h : parseExponent cs = some p) : p.2.length ≤ cs.length := by
  unfold parseExponent at h
  split at h
  · cases h
    simp
  · rename_i c rest
    split at h
    · split at h
      · cases h
      · rename_i s rest1
        split at h
        · obtain ⟨q, hq, rfl⟩ := Option.map_eq_some'.mp h
          have := parseDigits_length rest1 q hq
          simp only [List.length_cons]
          omega
        · obtain ⟨q, hq, rfl⟩ := Option.map_eq_some'.mp h
          have := parseDigits_length _ q hq
          simp only [List.length_cons] at this ⊢
          omega
    · cases h
      simp

theorem parseUnsigned_length (cs : JSString) (p : JSString × JSString)
    (h : parseUnsigned cs = some p) : p.2.length ≤ cs.length := by
  unfold parseUnsigned at h
  split at h
  · cases h
  · rename_i i rest hi
    split at h
    · cases h
    · rename_i f rest1 hf
      split at h
      · cases h
      · rename_i e rest2 he
        cases h
        have h1 := parseInt_length cs _ hi
        have h2 := parseFraction_length rest _ hf
        have h3 := parseExponent_length rest1 _ he
        simp only at h1 h2 h3 ⊢
        omega

theorem parseNumber_length (cs : JSString) (p : JSString × JSString)
    (h : parseNumber cs = some p) : p.2.length ≤ cs.length := by
  unfold parseNumber at h
  split at h
  · cases h
  · rename_i c rest
    split at h
    · obtain ⟨q, hq, rfl⟩ := Option.map_eq_some'.mp h
      have := parseUnsigned_length rest q hq
      simp only [List.length_cons]
      omega
    · exact parseUnsigned_length _ p h

end TodoApp

namespace TodoApp

theorem parseStep_transfer (g g' : ParseMode → JSString → Option (JSValue × JSString))
    (m : ParseMode) (cs : JSString) (r : JSValue × JSString)
    (hlen : ∀ m' cs' r', g m' cs' = some r' → r'.2.length ≤ cs'.length)
    (H : ∀ m' cs' r', parseFuel m' cs' + 1 ≤ parseFuel m cs →
      g m' cs' = some r' → g' m' cs' = some r')
    (h : parseStep g m cs = some r) :
    r.2.length ≤ cs.length ∧ parseStep g' m cs = some r := by
  cases m with
  | value =>
    rw [parseStep] at h ⊢
    have hs := skipWhiteSpace_length cs
    cases hsk : skipWhiteSpace cs with
    | nil => rw [hsk] at h; cases h
    | cons c rest =>
      rw [hsk] at h hs
      simp only [List.length_cons] at hs
      simp only at h ⊢
      by_cases h22 : c = 0x22
      · simp only [h22, if_true] at h ⊢
        refine ⟨?_, h⟩
        obtain ⟨q, hq, rfl⟩ := Option.map_eq_some'.mp h
        have := parseStringChars_length rest q hq
        simp only
        omega
      simp only [h22, if_false] at h ⊢
      by_cases h5b : c = 0x5B
      · simp only [h5b, if_true] at h ⊢
        have hs1 := skipWhiteSpace_length rest
        cases hsk1 : skipWhiteSpace rest with
        | nil => rw [hsk1] at h; cases h
        | cons d rest1 =>
          rw [hsk1] at h hs1
          simp only [List.length_cons] at hs1
          simp only at h ⊢
          by_cases hd : d = 0x5D
          · simp only [hd, if_true] at h ⊢
            refine ⟨?_, h⟩
            cases h
            simp only
            omega
          · simp only [hd, if_false] at h ⊢
            refine ⟨?_, H _ _ _ ?_ h⟩
            · have := hlen _ _ _ h
              omega
            · simp only [parseFuel]
              omega
      simp only [h5b, if_false] at h ⊢
      by_cases h7b : c = 0x7B
      · simp only [h7b, if_true] at h ⊢
        have hs1 := skipWhiteSpace_length rest
        cases hsk1 : skipWhiteSpace rest with
        | nil => rw [hsk1] at h; cases h
        | cons d rest1 =>
          rw [hsk1] at h hs1
          simp only [List.length_cons] at hs1
          simp only at h ⊢
          by_cases hd : d = 0x7D
          · simp only [hd, if_true] at h ⊢
            refine ⟨?_, h⟩
            cases h
            simp only
            omega
          · simp only [hd, if_false] at h ⊢
            refine ⟨?_, H _ _ _ ?_ h⟩
            · have := hlen _ _ _ h
              omega
            · simp only [parseFuel]
              omega
      simp only [h7b, if_false] at h ⊢
      refine ⟨?_, h⟩
      split at h
      · obtain ⟨q, hq, rfl⟩ := Option.map_eq_some'.mp h
        have := dropPrefix_length _ _ _ hq
        simp only
        omega
      split at h
      · obtain ⟨q, hq, rfl⟩ := Option.map_eq_some'.mp h
        have := dropPrefix_length _ _ _ hq
        simp only
        omega
      split at h
      · obtain ⟨q, hq, rfl⟩ := Option.map_eq_some'.mp h
        have := dropPrefix_length _ _ _ hq
        simp only
        omega
      · obtain ⟨q, hq, rfl⟩ := Option.map_eq_some'.mp h
        have := parseNumber_length _ _ hq
        simp only [List.length_cons] at this ⊢
        omega
  | elements acc =>
    rw [parseStep] at h ⊢
    cases hv : g .value cs with
    | none => rw [hv] at h; cases h
    | some pr =>
      obtain ⟨v, rest⟩ := pr
      have hv' := H .value cs _ (by simp only [parseFuel]; omega) hv
      have hl := hlen _ _ _ hv
      rw [hv] at h
      rw [hv']
      simp only at h hl ⊢
      have hs := skipWhiteSpace_length rest
      cases hsk : skipWhiteSpace rest with
      | nil => rw [hsk] at h; cases h
      | cons d rest1 =>
        rw [hsk] at h hs
        simp only [List.length_cons] at hs
        simp only at h ⊢
        by_cases hc : d = 0x2C
        · simp only [hc, if_true] at h ⊢
          refine ⟨?_, H _ _ _ ?_ h⟩
          · have := hlen _ _ _ h
            omega
          · simp only [parseFuel]
            omega
        simp only [hc, if_false] at h ⊢
        refine ⟨?_, h⟩
        split at h
        · cases h
          simp only
          omega
        · cases h
  | members acc =>
    rw [parseStep] at h ⊢
    have hs := skipWhiteSpace_length cs
    cases hsk : skipWhiteSpace cs with
    | nil => rw [hsk] at h; cases h
    | cons q rest =>
      rw [hsk] at h hs
      simp only [List.length_cons] at hs
      simp only at h ⊢
      by_cases hq : q = 0x22
      · simp only [hq, if_true] at h ⊢
        cases hkey : parseStringChars rest with
        | none => rw [hkey] at h; cases h
        | some pk =>
          obtain ⟨key, rest1⟩ := pk
          have hkl := parseStringChars_length rest _ hkey
          rw [hkey] at h
          simp only at h hkl ⊢
          have hs1 := skipWhiteSpace_length rest1
          cases hsk1 : skipWhiteSpace rest1 with
          | nil => rw [hsk1] at h; cases h
          | cons colon rest2 =>
            rw [hsk1] at h hs1
            simp only [List.length_cons] at hs1
            simp only at h ⊢
            by_cases hcol : colon = 0x3A
            · simp only [hcol, if_true] at h ⊢
              cases hv : g .value rest2 with
              | none => rw [hv] at h; cases h
              | some pr =>
                obtain ⟨v, rest3⟩ := pr
                have hv' := H .value rest2 _ (by simp only [parseFuel]; omega) hv
                have hl := hlen _ _ _ hv
                rw [hv] at h
                rw [hv']
                simp only at h hl ⊢
                have hs3 := skipWhiteSpace_length rest3
                cases hsk3 : skipWhiteSpace rest3 with
                | nil => rw [hsk3] at h; cases h
                | cons d rest4 =>
                  rw [hsk3] at h hs3
                  simp only [List.length_cons] at hs3
                  simp only at h ⊢
                  by_cases hc : d = 0x2C
                  · simp only [hc, if_true] at h ⊢
                    refine ⟨?_, H _ _ _ ?_ h⟩
                    · have := hlen _ _ _ h
                      omega
                    · simp only [parseFuel]
                      omega
                  simp only [hc, if_false] at h ⊢
                  refine ⟨?_, h⟩
                  split at h
                  · cases h
                    simp only
                    omega
                  · cases h
            · simp only [hcol, if_false] at h
              cases h
      · simp only [hq, if_false] at h
        cases h

end TodoApp

namespace TodoApp

theorem parseJSON_length (fuel : Nat) :
    ∀ (m : ParseMode) (cs : JSString) (r : JSValue × JSString),
      parseJSON fuel m cs = some r → r.2.length ≤ cs.length := by
  induction fuel with
  | zero => intro m cs r h; cases h
  | succ fuel ih =>
    intro m cs r h
    exact (parseStep_transfer (parseJSON fuel) (parseJSON fuel) m cs r ih
      (fun _ _ _ _ h' => h') h).1

theorem parseJSON_mono_succ (fuel : Nat) :
    ∀ (m : ParseMode) (cs : JSString) (r : JSValue × JSString),
      parseJSON fuel m cs = some r → parseJSON (fuel + 1) m cs = some r := by
  induction fuel with
  | zero => intro m cs r h; cases h
  | succ fuel ih =>
    intro m cs r h
    exact (parseStep_transfer (parseJSON fuel) (parseJSON (fuel + 1)) m cs r
      (parseJSON_length fuel) (fun m' cs' r' _ h' => ih m' cs' r' h') h).2

theorem parseJSON_mono (fuel fuel' : Nat) (hle : fuel ≤ fuel') (m : ParseMode)
    (cs : JSString) (r : JSValue × JSString) (h : parseJSON fuel m cs = some r) :
    parseJSON fuel' m cs = some r := by
  induction hle with
  | refl => exact h
  | step _ ih => exact parseJSON_mono_succ _ m cs r ih

theorem parseFuel_pos (m : ParseMode) (cs : JSString) : 0 < parseFuel m cs := by
  cases m <;> simp [parseFuel]

/-- A parse found with any fuel is found with the fuel `parseFuel` gives. -/
theorem parseJSON_fuel_enough (fuel : Nat) :
    ∀ (m : ParseMode) (cs : JSString) (r : JSValue × JSString),
      parseJSON fuel m cs = some r → parseJSON (parseFuel m cs) m cs = some r := by
  induction fuel with
  | zero => intro m cs r h; cases h
  | succ fuel ih =>
    intro m cs r h
    obtain ⟨k, hk⟩ : ∃ k, parseFuel m cs = k + 1 :=
      ⟨parseFuel m cs - 1, by have := parseFuel_pos m cs; omega⟩
    rw [hk]
    refine (parseStep_transfer (parseJSON fuel) (parseJSON k) m cs r
      (parseJSON_length fuel) ?_ h).2
    intro m' cs' r' hle h'
    exact parseJSON_mono _ _ (by omega) m' cs' r' (ih m' cs' r' h')

/-- The text is rejected by `jsonParse` exactly when no number of levels lets the grammar
read it as one value followed by white space only. -/
theorem jsonParse_eq_none_iff (text : JSString) :
    jsonParse text = none ↔
      ∀ (fuel : Nat) (v : JSValue) (rest : JSString),
        parseJSON fuel .value text = some (v, rest) → skipWhiteSpace rest ≠ [] := by
  constructor
  · intro hnone fuel v rest h hrest
    have h' := parseJSON_fuel_enough fuel .value text _ h
    simp [jsonParse, h', hrest] at hnone
  · intro hall
    unfold jsonParse
    split
    · rfl
    · rename_i v rest h
      simp [hall _ v rest h]

end TodoApp
